import Mathlib

/-!
Verification of the ingestion / retrieval core of the rag-system repository.

The Python services are shallowly embedded: pure helpers become Lean
functions, network calls become `Except`-valued outcomes supplied as
arguments, and the index / embedder are modelled as argument functions.
Numeric values exchanged with the services are modelled as exact
rationals.
-/

namespace RagSystem

/-- Python `a or b` on optional numbers: a present value of `0` is falsy
and falls through to `b`, as does an absent value. -/
def pyOrNum (a b : Option ℚ) : Option ℚ :=
  match a with
  | some v => if v = 0 then b else some v
  | none => b

/-- Python `a or b` on optional strings: the empty string is falsy. -/
def pyOrStr (a b : Option String) : Option String :=
  match a with
  | some v => if v = "" then b else some v
  | none => b

/-- The `_additional` payload of a retrieval hit: the object identifiers
and the relevance signals (`certainty`, `score`, `distance`) Weaviate may
attach, each optional.  Modelled from `app/services/retrieval.py`. -/
structure Additional where
  id : Option String
  uuid : Option String
  certainty : Option ℚ
  score : Option ℚ
  distance : Option ℚ
deriving DecidableEq, Repr

/-- Embedding of `_resolve_score` (retrieval.py lines 118-132):
`score = additional.get("certainty") or additional.get("score")`, returned
when not `None`; otherwise `1 - distance` when a distance is present;
otherwise `None`.  The `float(...)` conversions always succeed on the
rational model. -/
def resolve_score (additional : Additional) : Option ℚ :=
  let s := pyOrNum additional.certainty additional.score
  match s with
  | some v => some v
  | none =>
    match additional.distance with
    | none => none
    | some d => some (1 - d)

/-- Weaviate boolean filter trees as built by the retrieval engine.
`leaf` stands for an opaque caller-supplied extra filter dict (a filter
dict passed by a caller is non-empty, hence truthy in Python). -/
inductive WhereFilter where
  | equal (path : List String) (value : String)
  | containsAny (path : List String) (values : List String)
  | and (left right : WhereFilter)
  | leaf (tag : String)
deriving DecidableEq, Repr

/-- Field path of the access-control predicate. -/
def allowed_principals_path : String := "allowed_principals"

/-- The access-control predicate built by `retrieve_documents`:
`allowed_principals CONTAINS-ANY principals`. -/
def principal_filter (principals : List String) : WhereFilter :=
  .containsAny [allowed_principals_path] principals

/-- Embedding of the filter composition in `retrieve_documents`
(retrieval.py lines 43-56): copy the extra filter; when the principals
list is truthy (present and non-empty) build the access-control
predicate and AND it with the extra filter when one is present, else use
it alone; when principals are absent or empty, keep the extra filter
(or no filter). -/
def compose_filter (filters : Option WhereFilter)
    (principals : Option (List String)) : Option WhereFilter :=
  let whereFilter := filters
  match principals with
  | some ps =>
    if ps.isEmpty then whereFilter
    else
      match whereFilter with
      | some f => some (.and f (principal_filter ps))
      | none => some (principal_filter ps)
  | none => whereFilter

/-- The `results` object of a Weaviate batch-delete response; the
`successful` count may be missing (`results.get("successful", 0)`). -/
structure DeleteResults where
  successful : Option Nat
deriving DecidableEq, Repr

/-- A batch-delete response: `getattr(response, "results", None) or {}`
makes the whole `results` object optional. -/
structure DeleteResponse where
  results : Option DeleteResults
deriving DecidableEq, Repr

/-- Embedding of `delete_existing_document_chunks` (worker/tasks.py lines
64-93): the index call's outcome is passed in; an exception is logged and
`0` returned, a successful response yields `results.get("successful", 0)`. -/
def delete_existing_document_chunks (outcome : Except String DeleteResponse) : Nat :=
  match outcome with
  | .error _ => 0
  | .ok resp =>
    match resp.results with
    | none => 0
    | some r => r.successful.getD 0

/-- The slice of the shared `Settings` object the ingestion worker and
the API ingestion helper read (packages/rag_shared/config.py). -/
structure Settings where
  ingestion_default_source : String
  ingestion_chunk_size : Int
  ingestion_chunk_overlap : Int
  ingestion_embed_batch_size : Int
  default_public_principal : String
deriving DecidableEq, Repr

/-- The defaults declared in `rag_shared/config.py`. -/
def default_settings : Settings :=
  { ingestion_default_source := "api"
    ingestion_chunk_size := 750
    ingestion_chunk_overlap := 100
    ingestion_embed_batch_size := 32
    default_public_principal := "public" }

/-- Embedding of `_resolve_chunk_params` (worker/tasks.py lines 25-34).
`size = chunk_size or settings.ingestion_chunk_size` makes both `None`
and `0` fall back to the configured default; `overlap` falls back only
when `None`; then `size ≤ 0` is clamped to 1, a negative overlap to 0,
and `overlap ≥ size` to `max (size - 1) 0`. -/
def resolve_chunk_params (settings : Settings)
    (chunk_size overlap : Option Int) : Int × Int :=
  let size := match chunk_size with
    | none => settings.ingestion_chunk_size
    | some n => if n = 0 then settings.ingestion_chunk_size else n
  let overlapValue := match overlap with
    | none => settings.ingestion_chunk_overlap
    | some o => o
  let size := if size ≤ 0 then 1 else size
  let overlapValue := if overlapValue < 0 then 0 else overlapValue
  let overlapValue := if size ≤ overlapValue then max (size - 1) 0 else overlapValue
  (size, overlapValue)

/-- Separator used by `" ".join(...)`. -/
def space_sep : String := " "

/-- Python `" ".join(chunk_words)`. -/
def joinWords (ws : List String) : String := String.intercalate space_sep ws

/-- One-pass splitter behind `pySplit`: `acc` holds the reversed
characters of the word being read; whitespace closes a word, and no
empty words are produced. -/
def splitWordsAux : List Char → List Char → List String
  | [], acc => if acc.isEmpty then [] else [String.mk acc.reverse]
  | c :: rest, acc =>
    if c.isWhitespace then
      if acc.isEmpty then splitWordsAux rest []
      else String.mk acc.reverse :: splitWordsAux rest []
    else splitWordsAux rest (c :: acc)

/-- Python `text.split()`: split on whitespace runs, dropping empties. -/
def pySplit (text : String) : List String := splitWordsAux text.data []

/-- The `for start in range(0, len(words), step)` loop of `chunk_text`
(worker/tasks.py lines 45-52), with the step encoded as `stepm1 + 1`
(the source computes `step = max(chunk_size - overlap, 1) ≥ 1`).  The
first `fuel` argument is an upper bound on the remaining iterations that
makes the recursion structural; `chunk_text` passes `words.length`,
which is sufficient because `start` strictly increases. -/
def chunk_loop (words : List String) (size stepm1 : Nat) : Nat → Nat → List String
  | 0, _ => []
  | fuel + 1, start =>
    if start < words.length then
      let chunkWords := (words.drop start).take size
      if chunkWords.isEmpty then []
      else if words.length ≤ start + size then [joinWords chunkWords]
      else joinWords chunkWords :: chunk_loop words size stepm1 fuel (start + (stepm1 + 1))
    else []

/-- Embedding of `chunk_text` (worker/tasks.py lines 37-53): resolve the
parameters, split on whitespace, return `[]` for no words, else run the
windowing loop with `step = max(size - overlap, 1)`. -/
def chunk_text (settings : Settings) (text : String)
    (chunk_size overlap : Option Int) : List String :=
  let p := resolve_chunk_params settings chunk_size overlap
  let size := p.1
  let overlapValue := p.2
  let words := pySplit text
  if words.isEmpty then []
  else
    let step := max (size - overlapValue) 1
    chunk_loop words size.toNat (step.toNat - 1) words.length 0

/-- Consecutive windows of `size` words advancing by `stepm1 + 1` words,
the final window possibly shorter, stopping once a window reaches the
end of the word list; `fuel`-structured with `fuel = length` sufficient. -/
def spec_windows_aux (size stepm1 : Nat) : Nat → List String → List (List String)
  | 0, _ => []
  | _, [] => []
  | fuel + 1, w :: ws =>
    if (w :: ws).length ≤ size then [w :: ws]
    else (w :: ws).take size :: spec_windows_aux size stepm1 fuel ((w :: ws).drop (stepm1 + 1))

/-- Windowing as the spec words it (refinement target for the chunker):
consecutive windows of `size` words whose start positions advance by
`step` words, the final window possibly shorter; an empty word list
yields no windows. -/
def spec_windows (size step : Nat) (words : List String) : List (List String) :=
  spec_windows_aux size (step - 1) words.length words

/-- A metadata value.  The ingestion pipeline only ever serializes flat
mappings whose values are strings (document id, filename, connector
fields) or integers (chunk_index), so the codec is modelled on exactly
that fragment of JSON. -/
inductive JVal where
  | str (s : String)
  | int (n : Int)
deriving DecidableEq, Repr

/-- A metadata mapping: a Python dict in insertion order. -/
abbrev Metadata := List (String × JVal)

/-- Python dict assignment `m[k] = v`: update in place when the key is
present, else append. -/
def set_key (m : Metadata) (k : String) (v : JVal) : Metadata :=
  if m.any (fun kv => kv.1 == k) then
    m.map (fun kv => if kv.1 = k then (k, v) else kv)
  else m ++ [(k, v)]

/-- Double-quote character. -/
def quoteChar : Char := Char.ofNat 34

/-- Backslash character. -/
def backslashChar : Char := Char.ofNat 92

/-- Opening brace character. -/
def lbraceChar : Char := Char.ofNat 123

/-- Closing brace character. -/
def rbraceChar : Char := Char.ofNat 125

/-- Comma character. -/
def commaChar : Char := ','

/-- Colon character. -/
def colonChar : Char := ':'

/-- Space character. -/
def spaceChar : Char := ' '

/-- Minus character. -/
def minusChar : Char := '-'

/-- Decimal digits of `n`, most significant first, prepended to `acc`.
The `fuel` argument makes the `n / 10` recursion structural; any
`fuel ≥ n` is sufficient. -/
def natDigsAux : Nat → Nat → List Char → List Char
  | 0, n, acc => Char.ofNat (48 + n % 10) :: acc
  | fuel + 1, n, acc =>
    let d := Char.ofNat (48 + n % 10)
    if n < 10 then d :: acc else natDigsAux fuel (n / 10) (d :: acc)

/-- Decimal digit characters of a natural number. -/
def natChars (n : Nat) : List Char := natDigsAux n n []

/-- Decimal rendering of an integer, as `json.dumps` prints it. -/
def intChars (n : Int) : List Char :=
  if n < 0 then minusChar :: natChars (-n).toNat else natChars n.toNat

/-- Rendering of a JSON string literal.  With `ensure_ascii=False`,
`json.dumps` copies characters verbatim apart from quotes, backslashes
and control characters; the round-trip theorems restrict strings to the
escape-free fragment, where the literal is just the quoted text. -/
def encStr (s : String) : List Char := quoteChar :: s.data ++ [quoteChar]

/-- Rendering of a metadata value. -/
def encVal : JVal → List Char
  | .str s => encStr s
  | .int n => intChars n

/-- Rendering of one `"key": value` object member (the default
`json.dumps` key separator is a colon followed by a space). -/
def encMemberChars (kv : String × JVal) : List Char :=
  encStr kv.1 ++ colonChar :: spaceChar :: encVal kv.2

/-- Rendering of the second and later members, each preceded by the
default `json.dumps` item separator (comma and space). -/
def encMembersTail : Metadata → List Char
  | [] => []
  | kv :: rest => commaChar :: spaceChar :: encMemberChars kv ++ encMembersTail rest

/-- Rendering of all members of an object. -/
def encMembersChars : Metadata → List Char
  | [] => []
  | kv :: rest => encMemberChars kv ++ encMembersTail rest

/-- Character-level rendering of a metadata mapping as a JSON object. -/
def jsonDumpsChars (m : Metadata) : List Char :=
  lbraceChar :: encMembersChars m ++ [rbraceChar]

/-- Model of `json.dumps(metadata, ensure_ascii=False)` on the flat
string/integer mappings the pipeline produces. -/
def jsonDumps (m : Metadata) : String := String.mk (jsonDumpsChars m)

/-- Digit test used by the number parser. -/
def isDigitC (c : Char) : Bool := 48 ≤ c.toNat && c.toNat ≤ 57

/-- Whitespace skipping, as `json.loads` does between tokens. -/
def skipWsL : List Char → List Char
  | [] => []
  | c :: cs => if c.isWhitespace then skipWsL cs else c :: cs

/-- Parse the body of a JSON string literal after the opening quote.
Escapes and raw control characters are outside the modelled fragment
and fail the parse. -/
def parseStringBody (acc : List Char) : List Char → Option (String × List Char)
  | [] => none
  | c :: rest =>
    if c = quoteChar then some (String.mk acc.reverse, rest)
    else if c = backslashChar then none
    else if c.toNat < 32 then none
    else parseStringBody (c :: acc) rest

/-- Take the longest digit run from the front of the input. -/
def takeDigitsL : List Char → List Char × List Char
  | [] => ([], [])
  | c :: rest =>
    if isDigitC c then
      let p := takeDigitsL rest
      (c :: p.1, p.2)
    else ([], c :: rest)

/-- Numeric value of a digit run. -/
def digitsVal (ds : List Char) : Nat :=
  ds.foldl (fun a c => a * 10 + (c.toNat - 48)) 0

/-- Parse a metadata value: a string literal or a (possibly negative)
integer. -/
def parseValueL (cs : List Char) : Option (JVal × List Char) :=
  match cs with
  | [] => none
  | c :: rest =>
    if c = quoteChar then
      match parseStringBody [] rest with
      | none => none
      | some p => some (.str p.1, p.2)
    else if c = minusChar then
      match takeDigitsL rest with
      | ([], _) => none
      | (ds, r) => some (.int (-(digitsVal ds : Int)), r)
    else if isDigitC c then
      match takeDigitsL (c :: rest) with
      | ([], _) => none
      | (ds, r) => some (.int ((digitsVal ds : Int)), r)
    else none

/-- Parse the members of a non-empty object: a quoted key, a colon, a
value, then either a comma and further members or the closing brace.
`fuel` bounds the member count; one member consumes several characters,
so any fuel at least the remaining input length is sufficient. -/
def parseMembersAux : Nat → List Char → Option (Metadata × List Char)
  | 0, _ => none
  | fuel + 1, cs =>
    match skipWsL cs with
    | [] => none
    | c :: rest =>
      if c = quoteChar then
        match parseStringBody [] rest with
        | none => none
        | some (k, afterKey) =>
          match skipWsL afterKey with
          | [] => none
          | c2 :: rest2 =>
            if c2 = colonChar then
              match parseValueL (skipWsL rest2) with
              | none => none
              | some (v, afterVal) =>
                match skipWsL afterVal with
                | [] => none
                | c3 :: rest3 =>
                  if c3 = commaChar then
                    match parseMembersAux fuel rest3 with
                    | none => none
                    | some (ms, r) => some ((k, v) :: ms, r)
                  else if c3 = rbraceChar then some ([(k, v)], rest3)
                  else none
            else none
      else none

/-- Parse a JSON object from the front of the input. -/
def parseObjL (cs : List Char) : Option (Metadata × List Char) :=
  match skipWsL cs with
  | [] => none
  | c :: rest =>
    if c = lbraceChar then
      match skipWsL rest with
      | [] => none
      | c2 :: rest2 =>
        if c2 = rbraceChar then some ([], rest2)
        else parseMembersAux rest.length (c2 :: rest2)
    else none

/-- Model of `json.loads` on the flat-object fragment: parse one object
and require only trailing whitespace after it. -/
def json_loads (s : String) : Option Metadata :=
  match parseObjL s.data with
  | none => none
  | some (m, rest) => if (skipWsL rest).isEmpty then some m else none

/-- Key of the fallback mapping built on a decode failure. -/
def raw_key : String := "raw"

/-- Embedding of the metadata decode in `retrieve_documents`
(retrieval.py lines 89-93): `json.loads` the stored string, and on a
decode failure fall back to `{"raw": <original string>}`. -/
def decode_metadata (metadata_raw : String) : Metadata :=
  match json_loads metadata_raw with
  | some m => m
  | none => [(raw_key, .str metadata_raw)]

/-- A character the escape-free round-trip fragment allows inside a
string: not a quote, not a backslash, not a control character. -/
def strOkChar (c : Char) : Bool :=
  c != quoteChar && c != backslashChar && 32 ≤ c.toNat

/-- A string in the escape-free fragment. -/
def strOk (s : String) : Bool := s.data.all strOkChar

/-- A metadata value in the escape-free fragment. -/
def valOk : JVal → Bool
  | .str s => strOk s
  | .int _ => true

/-- A metadata mapping in the escape-free fragment. -/
def metaOk (m : Metadata) : Bool := m.all (fun kv => strOk kv.1 && valOk kv.2)

/-- The shared `DocumentChunk` schema (rag_shared/schemas.py).  `id` is
optional here because the retrieval mapper may genuinely produce a
missing identifier; ingestion always fills it. -/
structure DocumentChunk where
  id : Option String
  text : String
  source : String
  document_id : Option String
  metadata : Metadata
  allowed_principals : List String
  score : Option ℚ
deriving DecidableEq, Repr

/-- The property bag written for one chunk by `upsert_chunks`
(worker/tasks.py lines 100-107); `metadata` is the serialized string. -/
structure ChunkProperties where
  chunk_id : String
  text : String
  source : String
  document_id : Option String
  metadata : String
  allowed_principals : List String
deriving DecidableEq, Repr

/-- One object written to the index by `batch.add_data_object`. -/
structure WrittenObject where
  properties : ChunkProperties
  vector : List ℚ
  uuid : String
deriving DecidableEq, Repr

/-- Embedding of `upsert_chunks` (worker/tasks.py lines 96-113): pair
chunks with vectors via `zip` (silently truncating to the shorter list)
and write each pair, flattening `metadata` through `json.dumps`. -/
def upsert_chunks (chunks : List DocumentChunk) (vectors : List (List ℚ)) :
    List WrittenObject :=
  (chunks.zip vectors).map (fun p =>
    { properties :=
        { chunk_id := p.1.id.getD ""
          text := p.1.text
          source := p.1.source
          document_id := p.1.document_id
          metadata := jsonDumps p.1.metadata
          allowed_principals := p.1.allowed_principals }
      vector := p.2
      uuid := p.1.id.getD "" })

/-- The JSON body returned by the embedding service; the vector list is
optional because the key may be missing from a malformed payload. -/
structure EmbedPayload where
  embeddings : Option (List (List ℚ))
deriving DecidableEq, Repr

/-- Error text standing for the `KeyError` raised by
`data["embeddings"]` on a payload without that key. -/
def key_error_embeddings : String := "KeyError: embeddings"

/-- Embedding of `embed_chunks` (worker/tasks.py lines 56-61) as a
function of the HTTP call's outcome: transport errors and non-success
statuses raise (the `Except.error` is the raised exception), a payload
without the key raises `KeyError`, and otherwise the vector list is
returned unchanged - its length is never compared with the input batch. -/
def embed_chunks (outcome : Except String EmbedPayload) :
    Except String (List (List ℚ)) :=
  match outcome with
  | .error e => .error e
  | .ok payload =>
    match payload.embeddings with
    | none => .error key_error_embeddings
    | some vectors => .ok vectors

/-- Source value for hits lacking one. -/
def unknown_source : String := "unknown"

/-- A raw retrieval hit as returned by the index: the requested stored
properties, each possibly missing, plus the `_additional` payload. -/
structure RawHit where
  chunk_id : Option String
  text : Option String
  source : Option String
  document_id : Option String
  metadata : Option String
  allowed_principals : Option (List String)
  additional : Additional
deriving DecidableEq, Repr

/-- Embedding of the hit-to-chunk mapping in `retrieve_documents`
(retrieval.py lines 85-107): identifier prefers `chunk_id`, then the
additional `id`, then `uuid` (Python `or`, so empty strings fall
through); missing text defaults to the empty string and missing source
to `unknown`; a stored metadata string is decoded with the `raw`
fallback while a missing one becomes the empty mapping; the score comes
from `_resolve_score`. -/
def hit_to_chunk (h : RawHit) : DocumentChunk :=
  { id := pyOrStr h.chunk_id (pyOrStr h.additional.id h.additional.uuid)
    text := h.text.getD ""
    source := h.source.getD unknown_source
    document_id := h.document_id
    metadata :=
      match h.metadata with
      | some s => decode_metadata s
      | none => []
    allowed_principals := h.allowed_principals.getD []
    score := resolve_score h.additional }

/-- The search mode of the composed query: vector similarity when an
embedding was obtained, else the index's native text search. -/
inductive SearchMode where
  | nearVector (vector : List ℚ)
  | nearText (concepts : List String)
deriving DecidableEq, Repr

/-- The query assembled by `retrieve_documents`: target class, search
mode, result limit and optional boolean filter. -/
structure QueryRequest where
  index_name : String
  mode : SearchMode
  top_k : Nat
  whereFilter : Option WhereFilter
deriving DecidableEq, Repr

/-- Embedding of `retrieve_documents` (retrieval.py lines 15-115).  The
query-embedding HTTP call's outcome is passed in: an exception is caught
and logged (never re-raised), a successful payload contributes
`json().get("embeddings", [])`, and the first vector, when any, selects
vector search, else text search over the raw query.  The index is the
argument function `client`; its hits are mapped to typed chunks. -/
def retrieve_documents (client : QueryRequest → List RawHit)
    (index_name : String) (query : String) (top_k : Nat)
    (embed_outcome : Except String EmbedPayload)
    (filters : Option WhereFilter) (principals : Option (List String)) :
    List DocumentChunk :=
  let embeddings :=
    match embed_outcome with
    | .error _ => []
    | .ok payload => payload.embeddings.getD []
  let vector := embeddings.head?
  let whereFilter := compose_filter filters principals
  let mode :=
    match vector with
    | some v => SearchMode.nearVector v
    | none => SearchMode.nearText [query]
  (client { index_name := index_name, mode := mode, top_k := top_k,
            whereFilter := whereFilter }).map hit_to_chunk

/-- Python `allowed_principals or [settings.default_public_principal]`,
as written in both `enqueue_ingest_document` (api ingestion.py) and
`ingest_document` (worker/tasks.py line 127): `None` and the empty list
are both falsy and replaced by the single public principal. -/
def resolve_principals (allowed : Option (List String)) (default : String) :
    List String :=
  match allowed with
  | some ps => if ps.isEmpty then [default] else ps
  | none => [default]

/-- One call made by the worker to an external collaborator, in order. -/
inductive ExternalCall where
  | deleteObjects (document_id : String)
  | embed (texts : List String)
  | upsert (objects : List WrittenObject)
deriving DecidableEq, Repr

/-- Metadata key carrying the parent document id. -/
def document_id_key : String := "document_id"

/-- Metadata key carrying the chunk position. -/
def chunk_index_key : String := "chunk_index"

/-- Stage string of a completed ingestion task. -/
def completed_stage : String := "completed"

/-- The chunk record built inside the ingestion loop (worker/tasks.py
lines 166-179): fresh id, batch text, source, document id, the base
metadata extended with `chunk_index`, and the resolved principals. -/
def build_document_chunk (id text source document_id : String)
    (base : Metadata) (idx : Nat) (principals : List String) : DocumentChunk :=
  { id := some id
    text := text
    source := source
    document_id := some document_id
    metadata := set_key base chunk_index_key (.int (idx : Int))
    allowed_principals := principals
    score := none }

/-- The result dict returned by `ingest_document`, together with the
`processed` count reported by the final progress update. -/
structure IngestResult where
  document_id : String
  stage : String
  processed : Nat
deriving DecidableEq, Repr

/-- The batch loop of `ingest_document` (worker/tasks.py lines 161-206):
take the next `batch_size` chunk texts (the batch size is encoded as
`batch_size_m1 + 1`; the source computes `max(1, ...)`), build chunk
records carrying `chunk_index`, embed the batch - an embedder exception
aborts the task (to be retried by the orchestrator) - then upsert the
zip of chunks and vectors and advance `processed` by the chunk count.
The trace of external calls is returned with the outcome; `fuel` bounds
the iterations structurally and any `fuel ≥ raws.length` is sufficient. -/
def ingest_loop (uuids : Nat → String)
    (embedder : List String → Except String EmbedPayload)
    (document_id source : String) (base : Metadata)
    (principals : List String) (batch_size_m1 : Nat) :
    Nat → List String → Nat → List ExternalCall × Except String Nat
  | _, [], processed => ([], .ok processed)
  | 0, _ :: _, processed => ([], .ok processed)
  | fuel + 1, r :: rs, processed =>
    let batchRaw := (r :: rs).take (batch_size_m1 + 1)
    let chunks := (List.zip (List.range batchRaw.length) batchRaw).map (fun p =>
      build_document_chunk (uuids (processed + p.1)) p.2 source document_id
        base (processed + p.1) principals)
    let texts := chunks.map (fun c => c.text)
    match embed_chunks (embedder texts) with
    | .error e => ([.embed texts], .error e)
    | .ok vectors =>
      let written := upsert_chunks chunks vectors
      let next := ingest_loop uuids embedder document_id source base principals
        batch_size_m1 fuel ((r :: rs).drop (batch_size_m1 + 1))
        (processed + chunks.length)
      (.embed texts :: .upsert written :: next.1, next.2)

/-- Embedding of the `ingest_document` task (worker/tasks.py lines
116-220): resolve metadata and principals, always prune existing chunks
for the document first (the prune outcome is passed in and its failures
are swallowed), chunk the text with the configured defaults, then run
the batch loop; on success return `{document_id, stage: "completed"}`
with the final `processed` count.  `uuids` supplies the per-chunk
`uuid.uuid4()` values. -/
def ingest_document (st : Settings) (uuids : Nat → String)
    (embedder : List String → Except String EmbedPayload)
    (delete_outcome : Except String DeleteResponse)
    (document_id source text : String) (metadata : Option Metadata)
    (allowed_principals : Option (List String)) :
    List ExternalCall × Except String IngestResult :=
  let metadataValue := metadata.getD []
  let principals := resolve_principals allowed_principals st.default_public_principal
  let deleted := delete_existing_document_chunks delete_outcome
  let raw_chunks := chunk_text st text none none
  let batch_size := (max 1 st.ingestion_embed_batch_size).toNat
  let base := metadataValue.foldl (fun acc kv => set_key acc kv.1 kv.2)
    [(document_id_key, .str document_id)]
  let res := ingest_loop uuids embedder document_id source base principals
    (batch_size - 1) raw_chunks.length raw_chunks 0
  let _ := deleted
  (.deleteObjects document_id :: res.1,
    res.2.map (fun processed =>
      { document_id := document_id, stage := completed_stage, processed := processed }))

/-- The task payload assembled by the API-side
`enqueue_ingest_document` (app/services/ingestion.py lines 12-33). -/
structure EnqueuePayload where
  document_id : String
  source : String
  text : String
  metadata : Metadata
  allowed_principals : List String
deriving DecidableEq, Repr

/-- Embedding of `enqueue_ingest_document`: `document_id or uuid4()`,
`source or settings.ingestion_default_source`, `metadata or {}`, and
`allowed_principals or [settings.default_public_principal]`
(`generated_id` stands for the fresh `uuid4()`). -/
def enqueue_ingest_document (st : Settings) (generated_id : String)
    (text : String) (source : Option String) (document_id : Option String)
    (metadata : Option Metadata) (allowed_principals : Option (List String)) :
    EnqueuePayload :=
  { document_id := (pyOrStr document_id (some generated_id)).getD generated_id
    source := (pyOrStr source (some st.ingestion_default_source)).getD
      st.ingestion_default_source
    text := text
    metadata := metadata.getD []
    allowed_principals := resolve_principals allowed_principals
      st.default_public_principal }

/-- True when the input does not start with a digit, so a digit run
ending right before it is maximal. -/
def notDigitHead : List Char → Bool
  | [] => true
  | c :: _ => !isDigitC c

/-- Concrete document id used in concrete runs. -/
def doc1 : String := "doc-1"

/-- Concrete source tag used in concrete runs. -/
def src_name : String := "api"

/-- The public principal configured by default. -/
def pub_principal : String := "public"

/-- A non-public principal. -/
def user_principal : String := "user:42"

/-- Tag of a concrete caller-supplied extra filter. -/
def tag_extra : String := "extra"

/-- The worked chunking example's input text. -/
def example_text : String := "a b c d e f g h"

/-- The worked chunking example's expected output. -/
def example_chunks : List String := [r"a b c", r"c d e", r"e f g", r"g h"]

/-- A two-word text. -/
def ab_text : String := "a b"

/-- The empty document text. -/
def empty_text : String := ""

/-- A string that is not decodable as a JSON object. -/
def bad_string : String := "hello"

/-- A concrete serializable metadata mapping. -/
def meta_example : Metadata :=
  [(document_id_key, .str doc1), (chunk_index_key, .int 0)]

/-- Chunk id used by the first concrete chunk. -/
def id_a : String := "a1"

/-- Chunk id used by the second concrete chunk. -/
def id_b : String := "b2"

/-- Text of the first concrete chunk. -/
def text_a : String := "alpha"

/-- Text of the second concrete chunk. -/
def text_b : String := "beta"

/-- A concrete chunk record. -/
def chunk_a : DocumentChunk :=
  { id := some id_a, text := text_a, source := src_name,
    document_id := some doc1, metadata := [],
    allowed_principals := [pub_principal], score := none }

/-- A second concrete chunk record. -/
def chunk_b : DocumentChunk :=
  { id := some id_b, text := text_b, source := src_name,
    document_id := some doc1, metadata := [],
    allowed_principals := [pub_principal], score := none }

/-- Chunk id supplied by the concrete uuid source. -/
def cid : String := "cid"

/-- A concrete uuid source for concrete ingestion runs. -/
def uuid_fn : Nat → String := fun _ => cid

/-- An embedder that answers every batch with one unit vector per text. -/
def embed_ok : List String → Except String EmbedPayload :=
  fun ts => .ok { embeddings := some (ts.map (fun _ => [(1 : ℚ)])) }

/-- A successful delete response reporting no removed chunks. -/
def delete_ok : Except String DeleteResponse := .ok { results := none }

/-- A concrete transport-error text. -/
def err_boom : String := "boom"

/-- The single object a concrete two-word ingestion run writes. -/
def c10_obj : WrittenObject :=
  { properties :=
      { chunk_id := cid
        text := ab_text
        source := src_name
        document_id := some doc1
        metadata := jsonDumps [(document_id_key, .str doc1), (chunk_index_key, .int 0)]
        allowed_principals := [pub_principal] }
    vector := [(1 : ℚ)]
    uuid := cid }

/-- C1: the claim asserts an explicit certainty is used as-is even when
it is `0.0` and a distance is also present; the code's Python `or` treats
a certainty of `0.0` as absent, so this hit scores `1 - 0.3 = 0.7`, not
`0`. -/
theorem c1_counterexample :
    resolve_score ⟨none, none, some 0, none, some ((3 : ℚ)/10)⟩ = some ((7 : ℚ)/10) ∧
    resolve_score ⟨none, none, some 0, none, some ((3 : ℚ)/10)⟩ ≠ some 0 := by
  constructor <;> norm_num [resolve_score, pyOrNum]

/-- C1 (amended): a present nonzero certainty is used as-is; a certainty
that is absent or `0.0` falls through to the explicit `score` field when
present, else to `1 - distance` when a distance is present, else the
score is absent.  The spec's worked examples hold: certainty `0.9` gives
`0.9`, a lone distance `0.3` gives `0.7`, and no signal gives no score. -/
theorem c1_amended :
    (∀ (a : Additional) (c : ℚ), a.certainty = some c → c ≠ 0 →
      resolve_score a = some c) ∧
    (∀ (a : Additional) (s : ℚ), (a.certainty = none ∨ a.certainty = some 0) →
      a.score = some s → resolve_score a = some s) ∧
    (∀ (a : Additional) (d : ℚ), (a.certainty = none ∨ a.certainty = some 0) →
      a.score = none → a.distance = some d → resolve_score a = some (1 - d)) ∧
    (∀ a : Additional, (a.certainty = none ∨ a.certainty = some 0) →
      a.score = none → a.distance = none → resolve_score a = none) ∧
    resolve_score ⟨none, none, some ((9 : ℚ)/10), none, none⟩ = some ((9 : ℚ)/10) ∧
    resolve_score ⟨none, none, none, none, some ((3 : ℚ)/10)⟩ = some ((7 : ℚ)/10) ∧
    resolve_score ⟨none, none, none, none, none⟩ = none := by
  refine ⟨?_, ?_, ?_, ?_, by norm_num [resolve_score, pyOrNum],
    by norm_num [resolve_score, pyOrNum], by norm_num [resolve_score, pyOrNum]⟩
  · intro a c hc hne
    simp [resolve_score, pyOrNum, hc, hne]
  · intro a s hcert hs
    rcases hcert with h | h <;> simp [resolve_score, pyOrNum, h, hs]
  · intro a d hcert hs hd
    rcases hcert with h | h <;> simp [resolve_score, pyOrNum, h, hs, hd]
  · intro a hcert hs hd
    rcases hcert with h | h <;> simp [resolve_score, pyOrNum, h, hs, hd]

/-- C1 witness: the amended theorem applied to a hit carrying certainty
`0.9` and distance `0.3`; the certainty wins. -/
theorem c1_witness :
    resolve_score ⟨none, none, some ((9 : ℚ)/10), none, some ((3 : ℚ)/10)⟩ =
      some ((9 : ℚ)/10) :=
  c1_amended.1 ⟨none, none, some ((9 : ℚ)/10), none, some ((3 : ℚ)/10)⟩
    ((9 : ℚ)/10) rfl (by norm_num)

/-- C4: the claim asserts `chunk(text, 0, o)` behaves like
`chunk(text, 1, 0)`; with the configured defaults a `chunk_size` of `0`
is falsy and falls back to the default size 750, so a two-word text
yields one window rather than two. -/
theorem c4_counterexample :
    chunk_text default_settings ab_text (some 0) (some 0) ≠
      chunk_text default_settings ab_text (some 1) (some 0) := by
  decide

/-- C4 (amended): a negative `chunk_size` is clamped to 1, but a
`chunk_size` of 0 is treated as unset and replaced by the configured
default; a negative overlap is clamped to 0 and an overlap at least the
resolved size to `size - 1`; no combination raises, and the resolved
parameters always satisfy `1 ≤ size` and `0 ≤ overlap < size`. -/
theorem c4_amended :
    (∀ (st : Settings) (o : Option Int) (n : Int), n < 0 →
      (resolve_chunk_params st (some n) o).1 = 1) ∧
    (∀ (st : Settings) (o : Option Int),
      resolve_chunk_params st (some 0) o = resolve_chunk_params st none o) ∧
    (∀ (st : Settings) (cs o : Option Int),
      1 ≤ (resolve_chunk_params st cs o).1 ∧
      0 ≤ (resolve_chunk_params st cs o).2 ∧
      (resolve_chunk_params st cs o).2 < (resolve_chunk_params st cs o).1) ∧
    (∀ (st : Settings) (cs : Option Int) (o : Int), o < 0 →
      (resolve_chunk_params st cs (some o)).2 = 0) ∧
    (∀ (st : Settings) (cs : Option Int) (o : Int), 0 ≤ o →
      (resolve_chunk_params st cs (some o)).1 ≤ o →
      (resolve_chunk_params st cs (some o)).2 =
        (resolve_chunk_params st cs (some o)).1 - 1) := by
  refine ⟨?_, ?_, ?_, ?_, ?_⟩
  · intro st o n hn
    rcases o with _ | o <;>
      simp only [resolve_chunk_params] <;> split_ifs <;> first | rfl | omega
  · intro st o
    simp [resolve_chunk_params]
  · intro st cs o
    rcases cs with _ | cs <;> rcases o with _ | o <;>
      simp only [resolve_chunk_params] <;> split_ifs <;>
      refine ⟨?_, ?_, ?_⟩ <;> omega
  · intro st cs o ho
    rcases cs with _ | cs <;>
      simp only [resolve_chunk_params] <;> split_ifs <;> rfl
  · intro st cs o ho hge
    rcases cs with _ | cs <;>
      revert hge <;> simp only [resolve_chunk_params] <;> split_ifs <;>
      intro hge <;> omega

/-- C4 witness: the amended theorem at concrete inputs - a negative size
is clamped to 1, a negative overlap to 0, and an overlap of 7 against a
size of 3 to 2. -/
theorem c4_witness :
    (resolve_chunk_params default_settings (some (-5)) none).1 = 1 ∧
    (resolve_chunk_params default_settings (some 3) (some (-2))).2 = 0 ∧
    (resolve_chunk_params default_settings (some 3) (some 7)).2 =
      (resolve_chunk_params default_settings (some 3) (some 7)).1 - 1 :=
  ⟨c4_amended.1 default_settings none (-5) (by norm_num),
   c4_amended.2.2.2.1 default_settings (some 3) (-2) (by norm_num),
   c4_amended.2.2.2.2 default_settings (some 3) 7 (by norm_num) (by decide)⟩

/-- C6: the composed search filter ANDs a caller filter with the
`allowed_principals CONTAINS-ANY` predicate when a non-empty principals
list is supplied, uses the predicate alone when only principals are
supplied, and omits the predicate entirely when principals are absent or
empty. -/
theorem c6_filter_composition :
    (∀ (f : WhereFilter) (p : String) (ps : List String),
      compose_filter (some f) (some (p :: ps)) =
        some (.and f (principal_filter (p :: ps)))) ∧
    (∀ (p : String) (ps : List String),
      compose_filter none (some (p :: ps)) = some (principal_filter (p :: ps))) ∧
    (∀ fo : Option WhereFilter, compose_filter fo none = fo) ∧
    (∀ fo : Option WhereFilter, compose_filter fo (some []) = fo) := by
  refine ⟨fun f p ps => rfl, fun p ps => rfl, fun fo => rfl, fun fo => ?_⟩
  cases fo <;> rfl

/-- C7: whenever the query-embedding attempt yields no vector - the call
raised, the payload lacks the `embeddings` key, or the vector list is
empty - retrieval still returns the mapped hits of a `nearText` search
over the raw query; nothing is raised. -/
theorem c7_embed_failure_fallback :
    ∀ (client : QueryRequest → List RawHit) (idx q : String) (k : Nat)
      (f : Option WhereFilter) (p : Option (List String)),
    (∀ e, retrieve_documents client idx q k (.error e) f p =
      (client ⟨idx, .nearText [q], k, compose_filter f p⟩).map hit_to_chunk) ∧
    (retrieve_documents client idx q k (.ok ⟨none⟩) f p =
      (client ⟨idx, .nearText [q], k, compose_filter f p⟩).map hit_to_chunk) ∧
    (retrieve_documents client idx q k (.ok ⟨some []⟩) f p =
      (client ⟨idx, .nearText [q], k, compose_filter f p⟩).map hit_to_chunk) := by
  intro client idx q k f p
  exact ⟨fun e => rfl, rfl, rfl⟩

/-- C8: a failing predicate-based delete is swallowed and reported as 0
removed chunks, while a successful one returns the count the index
reports. -/
theorem c8_delete_best_effort :
    (∀ e, delete_existing_document_chunks (.error e) = 0) ∧
    (∀ n : Nat, delete_existing_document_chunks (.ok ⟨some ⟨some n⟩⟩) = n) :=
  ⟨fun _ => rfl, fun _ => rfl⟩

/-- C2: a two-text batch whose response carries a single vector is
accepted by `embed_chunks` unchanged - no error of any kind is raised -
and the writer then zips it against the chunks, silently writing only
the first chunk.  The spec names this a contract violation that must
raise a `TransportError`; the code performs no length check. -/
theorem c2_short_embeddings_accepted :
    embed_chunks (.ok ⟨some [[(1 : ℚ)]]⟩) = .ok [[(1 : ℚ)]] ∧
    (upsert_chunks [chunk_a, chunk_b] [[(1 : ℚ)]]).length = 1 ∧
    (upsert_chunks [chunk_a, chunk_b] [[(1 : ℚ)]]).map (fun o => o.uuid) = [id_a] :=
  ⟨rfl, rfl, rfl⟩

/-- C3: the claim asserts an empty-text ingestion makes no index-writer
call at all, delete included; the task nevertheless issues its dedup
delete first, so a concrete empty-text run's trace is exactly the one
delete call. -/
theorem c3_counterexample :
    (ingest_document default_settings uuid_fn embed_ok delete_ok doc1 src_name
      empty_text none none).1 = [.deleteObjects doc1] ∧
    ExternalCall.deleteObjects doc1 ∈
      (ingest_document default_settings uuid_fn embed_ok delete_ok doc1 src_name
        empty_text none none).1 := by
  exact ⟨rfl, by decide⟩

/-- C3 (amended): ingesting empty text produces zero chunks and the task
completes with `processed = 0`, making no embedder call and no upsert
call; the idempotent dedup delete is still issued, so the external-call
trace is exactly that one delete. -/
theorem c3_amended :
    ∀ (st : Settings) (uuids : Nat → String)
      (embedder : List String → Except String EmbedPayload)
      (dout : Except String DeleteResponse) (docId src : String)
      (meta : Option Metadata) (ap : Option (List String)),
    ingest_document st uuids embedder dout docId src empty_text meta ap =
      ([.deleteObjects docId],
        .ok { document_id := docId, stage := completed_stage, processed := 0 }) := by
  intro st uuids embedder dout docId src meta ap
  rfl

/-- Principal resolution never yields the empty list: `None` and `[]`
are both replaced by the single default principal. -/
theorem resolve_principals_ne_nil (ap : Option (List String)) (d : String) :
    resolve_principals ap d ≠ [] := by
  rcases ap with _ | ps
  · simp [resolve_principals]
  · by_cases h : ps.isEmpty
    · simp [resolve_principals, h]
    · simp only [resolve_principals, h, if_false]
      simpa [List.isEmpty_iff] using h

/-- Every object the writer produces copies its chunk's principal list
into the written property bag. -/
theorem upsert_chunks_principals (principals : List String)
    (chunks : List DocumentChunk) (vectors : List (List ℚ))
    (h : ∀ c ∈ chunks, c.allowed_principals = principals) :
    ∀ o ∈ upsert_chunks chunks vectors,
      o.properties.allowed_principals = principals := by
  intro o ho
  simp only [upsert_chunks, List.mem_map] at ho
  obtain ⟨p, hp, rfl⟩ := ho
  exact h p.1 (List.of_mem_zip hp).1

/-- Every chunk built by the ingestion loop carries the resolved
principals, hence so does every object of every upsert call it makes. -/
theorem ingest_loop_upsert_principals (uuids : Nat → String)
    (embedder : List String → Except String EmbedPayload)
    (docId src : String) (base : Metadata) (principals : List String)
    (bsm1 : Nat) :
    ∀ (fuel : Nat) (raws : List String) (processed : Nat) (call : ExternalCall),
    call ∈ (ingest_loop uuids embedder docId src base principals bsm1
      fuel raws processed).1 →
    ∀ objs, call = .upsert objs →
    ∀ o ∈ objs, o.properties.allowed_principals = principals := by
  intro fuel
  induction fuel with
  | zero =>
    intro raws processed call hcall
    rcases raws with _ | ⟨r, rs⟩ <;> simp [ingest_loop] at hcall
  | succ fuel ih =>
    intro raws processed call hcall objs heq o ho
    rcases raws with _ | ⟨r, rs⟩
    · simp [ingest_loop] at hcall
    · simp only [ingest_loop] at hcall
      revert hcall
      split
      · intro hcall
        simp only [List.mem_singleton] at hcall
        subst hcall
        cases heq
      · intro hcall
        rcases List.mem_cons.mp hcall with h1 | h2
        · subst h1; cases heq
        · rcases List.mem_cons.mp h2 with h3 | h4
          · subst h3
            cases heq
            refine upsert_chunks_principals principals _ _ ?_ o ho
            intro c hc
            simp only [List.mem_map] at hc
            obtain ⟨p, hp, rfl⟩ := hc
            rfl
          · exact ih _ _ call h4 objs heq o ho

/-- C10: both the API ingestion entry point and the worker task replace
an absent or empty principals list with the single configured public
principal, so the enqueue payload's principal list is never empty and no
object of any upsert call made by the task carries an empty
`allowed_principals`. -/
theorem c10_principals_never_empty :
    (∀ (st : Settings) (gen text : String) (src docId : Option String)
        (meta : Option Metadata) (ap : Option (List String)),
      (enqueue_ingest_document st gen text src docId meta ap).allowed_principals ≠ []) ∧
    (∀ (st : Settings) (uuids : Nat → String)
        (embedder : List String → Except String EmbedPayload)
        (dout : Except String DeleteResponse) (docId src text : String)
        (meta : Option Metadata) (ap : Option (List String))
        (call : ExternalCall),
      call ∈ (ingest_document st uuids embedder dout docId src text meta ap).1 →
      ∀ objs, call = .upsert objs →
      ∀ o ∈ objs, o.properties.allowed_principals ≠ []) := by
  constructor
  · intro st gen text src docId meta ap
    exact resolve_principals_ne_nil ap st.default_public_principal
  · intro st uuids embedder dout docId src text meta ap call hcall objs heq o ho
    simp only [ingest_document] at hcall
    rcases List.mem_cons.mp hcall with h1 | h2
    · subst h1; cases heq
    · have := ingest_loop_upsert_principals uuids embedder docId src _
        (resolve_principals ap st.default_public_principal) _ _ _ _ call h2 objs heq o ho
      rw [this]
      exact resolve_principals_ne_nil ap st.default_public_principal

/-- C10 witness: the theorem applied to a concrete enqueue with an empty
principal list and to the one object upserted by a concrete two-word
ingestion run. -/
theorem c10_witness :
    (enqueue_ingest_document default_settings cid ab_text none none none
      (some [])).allowed_principals ≠ [] ∧
    c10_obj.properties.allowed_principals ≠ [] :=
  ⟨c10_principals_never_empty.1 default_settings cid ab_text none none none (some []),
   c10_principals_never_empty.2 default_settings uuid_fn embed_ok delete_ok doc1
     src_name ab_text none none (.upsert [c10_obj]) (by decide) [c10_obj] rfl
     c10_obj (by decide)⟩

/-- The index-based windowing loop of `chunk_text` computes exactly the
spec's drop/take windows of the remaining words, for any window size of
at least one word. -/
theorem chunk_loop_eq_spec (size stepm1 : Nat) (hs : 1 ≤ size) :
    ∀ (fuel : Nat) (words : List String) (start : Nat),
      words.length - start ≤ fuel →
      chunk_loop words size stepm1 fuel start =
        (spec_windows_aux size stepm1 fuel (words.drop start)).map joinWords := by
  intro fuel
  induction fuel with
  | zero =>
    intro words start h
    have hdrop : words.drop start = [] := List.drop_eq_nil_of_le (by omega)
    simp [chunk_loop, spec_windows_aux, hdrop]
  | succ fuel ih =>
    intro words start h
    by_cases hlt : start < words.length
    · have hne : words.drop start ≠ [] := by
        intro hnil
        have hly := List.drop_eq_nil_iff.mp hnil
        omega
      obtain ⟨w, ws, hws⟩ := List.exists_cons_of_ne_nil hne
      have hlen : (w :: ws).length = words.length - start := by
        rw [← hws, List.length_drop]
      obtain ⟨k, hk⟩ := Nat.exists_eq_add_of_le hs
      have htake : ((words.drop start).take size).isEmpty = false := by
        rw [hws, hk]
        simp [List.take_succ_cons]
      rw [hws] at htake
      by_cases hcov : words.length ≤ start + size
      · have hle : (w :: ws).length ≤ size := by omega
        have htakeall : (w :: ws).take size = w :: ws :=
          List.take_of_length_le hle
        simp only [chunk_loop, if_pos hlt, if_pos hcov, hws, spec_windows_aux,
          if_pos hle, List.map_cons, List.map_nil, htakeall]
        simp [htake, htakeall]
      · have hle : ¬((w :: ws).length ≤ size) := by omega
        have hdd : words.drop (start + (stepm1 + 1)) =
            (words.drop start).drop (stepm1 + 1) := by
          rw [List.drop_drop, Nat.add_comm]
        have hrec := ih words (start + (stepm1 + 1)) (by omega)
        simp only [chunk_loop, if_pos hlt, if_neg hcov, hws, spec_windows_aux,
          if_neg hle, List.map_cons, hrec, hdd]
        simp [htake]
    · have hdrop : words.drop start = [] := List.drop_eq_nil_of_le (by omega)
      simp [chunk_loop, hlt, spec_windows_aux, hdrop]

/-- C5: on clamp-free parameters (`1 ≤ chunk_size`, `0 ≤ overlap <
chunk_size`) the chunker returns exactly the spec's consecutive windows
of `chunk_size` words advancing by `chunk_size - overlap` words, joined
on single spaces, and the worked example splits `"a b c d e f g h"`
with size 3 and overlap 1 into `["a b c", "c d e", "e f g", "g h"]`. -/
theorem c5_chunker_windows :
    (∀ (st : Settings) (text : String) (cs o : Int), 1 ≤ cs → 0 ≤ o → o < cs →
      chunk_text st text (some cs) (some o) =
        (spec_windows cs.toNat (cs - o).toNat (pySplit text)).map joinWords) ∧
    chunk_text default_settings example_text (some 3) (some 1) = example_chunks := by
  constructor
  · intro st text cs o h1 h2 h3
    have hres : resolve_chunk_params st (some cs) (some o) = (cs, o) := by
      simp only [resolve_chunk_params]
      split_ifs <;> first | rfl | (exfalso; omega)
    have hmax : max (cs - o) 1 = cs - o := max_eq_left (by omega)
    simp only [chunk_text, hres, hmax, spec_windows]
    rcases hsplit : pySplit text with _ | ⟨w, ws⟩
    · simp [spec_windows_aux]
    · have hne : ((w :: ws).isEmpty) = false := by simp
      rw [hne]
      simp only [Bool.false_eq_true, if_false]
      rw [chunk_loop_eq_spec cs.toNat ((cs - o).toNat - 1) (by omega)
        (w :: ws).length (w :: ws) 0 (by omega)]
      rw [List.drop_zero]
  · decide

/-- C5 witness: the equivalence applied to the worked example. -/
theorem c5_witness :
    chunk_text default_settings example_text (some 3) (some 1) =
      (spec_windows (3 : Int).toNat ((3 : Int) - 1).toNat
        (pySplit example_text)).map joinWords :=
  c5_chunker_windows.1 default_settings example_text 3 1 (by norm_num)
    (by norm_num) (by norm_num)

theorem string_mk_data (s : String) : String.mk s.data = s := by
  cases s
  rfl

theorem skipWs_not_ws (c : Char) (cs : List Char) (h : c.isWhitespace = false) :
    skipWsL (c :: cs) = c :: cs := by
  simp [skipWsL, h]

theorem digit_not_ws {c : Char} (h : isDigitC c = true) :
    c.isWhitespace = false := by
  simp only [isDigitC, Bool.and_eq_true, decide_eq_true_eq] at h
  rcases h with ⟨h1, h2⟩
  by_contra hw
  simp only [Bool.not_eq_false] at hw
  simp only [Char.isWhitespace, Bool.or_eq_true, decide_eq_true_eq] at hw
  rcases hw with ((h | h) | h) | h <;> subst h <;> revert h1 h2 <;> decide

theorem parseStringBody_append :
    ∀ (cs acc rest : List Char), cs.all strOkChar = true →
      parseStringBody acc (cs ++ quoteChar :: rest) =
        some (String.mk (acc.reverse ++ cs), rest) := by
  intro cs
  induction cs with
  | nil =>
    intro acc rest h
    simp [parseStringBody]
  | cons c cs ih =>
    intro acc rest h
    simp only [List.all_cons, Bool.and_eq_true] at h
    obtain ⟨hc, hcs⟩ := h
    simp only [strOkChar, Bool.and_eq_true, bne_iff_ne, ne_eq,
      decide_eq_true_eq] at hc
    obtain ⟨⟨hq, hb⟩, hctl⟩ := hc
    simp only [List.cons_append, parseStringBody, if_neg hq, if_neg hb]
    rw [if_neg (by omega)]
    simpa using ih (c :: acc) rest hcs
theorem toNat_ofNat_digit (k : Nat) (h : k < 10) :
    (Char.ofNat (48 + k)).toNat = 48 + k := by
  interval_cases k <;> rfl

theorem natDigsAux_acc :
    ∀ (fuel n : Nat) (acc : List Char),
      natDigsAux fuel n acc = natDigsAux fuel n [] ++ acc := by
  intro fuel
  induction fuel with
  | zero => intro n acc; simp [natDigsAux]
  | succ fuel ih =>
    intro n acc
    by_cases h : n < 10
    · simp [natDigsAux, h]
    · simp only [natDigsAux, if_neg h]
      rw [ih (n / 10) (Char.ofNat (48 + n % 10) :: acc),
        ih (n / 10) [Char.ofNat (48 + n % 10)]]
      simp

theorem natDigsAux_digits :
    ∀ (fuel n : Nat), (natDigsAux fuel n []).all isDigitC = true := by
  intro fuel
  induction fuel with
  | zero =>
    intro n
    simp only [natDigsAux, List.all_cons, List.all_nil, Bool.and_true]
    simp [isDigitC, toNat_ofNat_digit (n % 10) (Nat.mod_lt n (by omega))]
    omega
  | succ fuel ih =>
    intro n
    by_cases h : n < 10
    · simp only [natDigsAux, if_pos h, List.all_cons, List.all_nil, Bool.and_true]
      simp [isDigitC, toNat_ofNat_digit (n % 10) (Nat.mod_lt n (by omega))]
      omega
    · simp only [natDigsAux, if_neg h]
      rw [natDigsAux_acc fuel (n / 10) [Char.ofNat (48 + n % 10)]]
      simp only [List.all_append, Bool.and_eq_true]
      refine ⟨ih (n / 10), ?_⟩
      simp [isDigitC, toNat_ofNat_digit (n % 10) (Nat.mod_lt n (by omega))]
      omega

theorem natDigsAux_ne_nil (fuel n : Nat) : natDigsAux fuel n [] ≠ [] := by
  cases fuel with
  | zero => simp [natDigsAux]
  | succ fuel =>
    by_cases h : n < 10
    · simp [natDigsAux, h]
    · simp only [natDigsAux, if_neg h]
      rw [natDigsAux_acc fuel (n / 10) [Char.ofNat (48 + n % 10)]]
      simp

theorem digitsVal_append_digit (xs : List Char) (c : Char) :
    digitsVal (xs ++ [c]) = digitsVal xs * 10 + (c.toNat - 48) := by
  simp [digitsVal, List.foldl_append]

theorem digitsVal_natDigsAux :
    ∀ (fuel n : Nat), n ≤ fuel + 9 → digitsVal (natDigsAux fuel n []) = n := by
  intro fuel
  induction fuel with
  | zero =>
    intro n h
    simp only [natDigsAux, digitsVal, List.foldl_cons, List.foldl_nil]
    rw [toNat_ofNat_digit (n % 10) (Nat.mod_lt n (by omega))]
    omega
  | succ fuel ih =>
    intro n h
    by_cases hlt : n < 10
    · simp only [natDigsAux, if_pos hlt, digitsVal, List.foldl_cons, List.foldl_nil]
      rw [toNat_ofNat_digit (n % 10) (Nat.mod_lt n (by omega))]
      omega
    · simp only [natDigsAux, if_neg hlt]
      rw [natDigsAux_acc fuel (n / 10) [Char.ofNat (48 + n % 10)]]
      rw [digitsVal_append_digit]
      rw [ih (n / 10) (by omega)]
      rw [toNat_ofNat_digit (n % 10) (Nat.mod_lt n (by omega))]
      omega

theorem digitsVal_natChars (n : Nat) : digitsVal (natChars n) = n :=
  digitsVal_natDigsAux n n (by omega)

theorem natChars_digits (n : Nat) : (natChars n).all isDigitC = true :=
  natDigsAux_digits n n

theorem natChars_ne_nil (n : Nat) : natChars n ≠ [] :=
  natDigsAux_ne_nil n n

theorem takeDigitsL_append :
    ∀ (ds rest : List Char), ds.all isDigitC = true → notDigitHead rest = true →
      takeDigitsL (ds ++ rest) = (ds, rest) := by
  intro ds
  induction ds with
  | nil =>
    intro rest hds hrest
    rcases rest with _ | ⟨c, cs⟩
    · rfl
    · simp only [notDigitHead, Bool.not_eq_true'] at hrest
      simp [takeDigitsL, hrest]
  | cons d ds ih =>
    intro rest hds hrest
    simp only [List.all_cons, Bool.and_eq_true] at hds
    obtain ⟨hd, hds⟩ := hds
    have h2 := ih rest hds hrest
    simp [takeDigitsL, hd, h2]
theorem digit_ne_quote {c : Char} (h : isDigitC c = true) : c ≠ quoteChar := by
  intro heq
  subst heq
  revert h
  decide

theorem digit_ne_minus {c : Char} (h : isDigitC c = true) : c ≠ minusChar := by
  intro heq
  subst heq
  revert h
  decide

theorem parseValueL_enc_str (s : String) (rest : List Char)
    (hs : strOk s = true) :
    parseValueL (encVal (.str s) ++ rest) = some (.str s, rest) := by
  have hdata : s.data.all strOkChar = true := by simpa [strOk] using hs
  have hp := parseStringBody_append s.data [] rest hdata
  simp only [List.nil_append, List.reverse_nil] at hp
  simp [parseValueL, encVal, encStr, hp, string_mk_data]

theorem parseValueL_enc_int (n : Int) (rest : List Char)
    (hrest : notDigitHead rest = true) :
    parseValueL (encVal (.int n) ++ rest) = some (.int n, rest) := by
  by_cases hneg : n < 0
  · simp only [encVal, intChars, if_pos hneg, List.cons_append]
    have hq : ¬(minusChar = quoteChar) := by decide
    simp only [parseValueL, if_neg hq, if_pos rfl]
    rw [takeDigitsL_append (natChars (-n).toNat) rest (natChars_digits _) hrest]
    obtain ⟨e, es, he⟩ := List.exists_cons_of_ne_nil (natChars_ne_nil (-n).toNat)
    have hval : digitsVal (e :: es) = (-n).toNat := by
      rw [← he]
      exact digitsVal_natChars _
    rw [he]
    simp [hval]
    all_goals omega
  · obtain ⟨e, es, he⟩ := List.exists_cons_of_ne_nil (natChars_ne_nil n.toNat)
    have hall := natChars_digits n.toNat
    rw [he] at hall
    simp only [List.all_cons, Bool.and_eq_true] at hall
    obtain ⟨hd, hds⟩ := hall
    simp only [encVal, intChars, if_neg hneg, he, List.cons_append]
    simp only [parseValueL, if_neg (digit_ne_quote hd), if_neg (digit_ne_minus hd),
      if_pos hd]
    have htd : takeDigitsL (e :: (es ++ rest)) = (e :: es, rest) := by
      have := takeDigitsL_append (e :: es) rest (by simp [hd, hds]) hrest
      simpa using this
    rw [htd]
    have hval : digitsVal (e :: es) = n.toNat := by
      rw [← he]
      exact digitsVal_natChars _
    simp [hval]
    all_goals omega
theorem skipWs_space (x : List Char) : skipWsL (spaceChar :: x) = skipWsL x := by
  simp [skipWsL, spaceChar]

theorem skipWs_encVal (v : JVal) (rest : List Char) :
    skipWsL (encVal v ++ rest) = encVal v ++ rest := by
  rcases v with s | n
  · simp only [encVal, encStr, List.cons_append]
    exact skipWs_not_ws _ _ (by decide)
  · simp only [encVal, intChars]
    by_cases hneg : n < 0
    · simp only [if_pos hneg, List.cons_append]
      exact skipWs_not_ws _ _ (by decide)
    · simp only [if_neg hneg]
      obtain ⟨e, es, he⟩ := List.exists_cons_of_ne_nil (natChars_ne_nil n.toNat)
      have hall := natChars_digits n.toNat
      rw [he] at hall
      simp only [List.all_cons, Bool.and_eq_true] at hall
      rw [he]
      simp only [List.cons_append]
      exact skipWs_not_ws _ _ (digit_not_ws hall.1)

theorem parseValueL_enc (v : JVal) (rest : List Char) (hv : valOk v = true)
    (hrest : notDigitHead rest = true) :
    parseValueL (encVal v ++ rest) = some (v, rest) := by
  rcases v with s | n
  · exact parseValueL_enc_str s rest (by simpa [valOk] using hv)
  · exact parseValueL_enc_int n rest hrest

theorem notDigitHead_cons (c : Char) (cs : List Char) (h : isDigitC c = false) :
    notDigitHead (c :: cs) = true := by
  simp [notDigitHead, h]

theorem parseMembersAux_single (fuel : Nat) (k : String) (v : JVal)
    (rest : List Char) (hk : strOk k = true) (hv : valOk v = true) :
    parseMembersAux (fuel + 1)
      (encMemberChars (k, v) ++ rbraceChar :: rest) = some ([(k, v)], rest) := by
  have hdata : k.data.all strOkChar = true := by simpa [strOk] using hk
  have hp := parseStringBody_append k.data []
    (colonChar :: spaceChar :: (encVal v ++ rbraceChar :: rest)) hdata
  simp only [List.nil_append, List.reverse_nil] at hp
  have hval := parseValueL_enc v (rbraceChar :: rest) hv (notDigitHead_cons _ _ (by decide))
  simp only [encMemberChars, encStr, List.cons_append, List.append_assoc,
    List.singleton_append, List.nil_append]
  simp only [parseMembersAux]
  rw [skipWs_not_ws _ _ (by decide : quoteChar.isWhitespace = false)]
  simp only [if_pos rfl, hp, string_mk_data]
  rw [skipWs_not_ws _ _ (by decide : colonChar.isWhitespace = false)]
  simp only [if_pos rfl, skipWs_space, skipWs_encVal, hval]
  rw [skipWs_not_ws _ _ (by decide : rbraceChar.isWhitespace = false)]
  have hcr : ¬(rbraceChar = commaChar) := by decide
  simp [hcr]
theorem parseMembersAux_space (fuel : Nat) (x : List Char) :
    parseMembersAux (fuel + 1) (spaceChar :: x) = parseMembersAux (fuel + 1) x := by
  simp only [parseMembersAux, skipWs_space]

theorem encMembersChars_cons (kv : String × JVal) (tl : Metadata) :
    encMembersChars (kv :: tl) = encMemberChars kv ++ encMembersTail tl := rfl

theorem encMembersTail_cons (kv : String × JVal) (tl : Metadata) :
    encMembersTail (kv :: tl) =
      commaChar :: spaceChar :: encMembersChars (kv :: tl) := by
  simp [encMembersTail, encMembersChars]

theorem parseMembersAux_enc :
    ∀ (ms : Metadata), ms ≠ [] → metaOk ms = true →
      ∀ (fuel : Nat), ms.length ≤ fuel → ∀ (rest : List Char),
      parseMembersAux fuel (encMembersChars ms ++ rbraceChar :: rest) =
        some (ms, rest) := by
  intro ms
  induction ms with
  | nil => intro h; exact absurd rfl h
  | cons kv tl ih =>
    intro _ hok fuel hfuel rest
    obtain ⟨k, v⟩ := kv
    simp only [metaOk, List.all_cons, Bool.and_eq_true] at hok
    obtain ⟨⟨hk, hv⟩, htl⟩ := hok
    obtain ⟨f, rfl⟩ : ∃ f, fuel = f + 1 := ⟨fuel - 1, by simp at hfuel; omega⟩
    rcases tl with _ | ⟨kv2, tl2⟩
    · have := parseMembersAux_single f k v rest hk hv
      simpa [encMembersChars, encMembersTail] using this
    · have hlen : (kv2 :: tl2).length ≤ f := by simp at hfuel ⊢; omega
      obtain ⟨f2, rfl⟩ : ∃ f2, f = f2 + 1 := ⟨f - 1, by simp at hlen; omega⟩
      have hdata : k.data.all strOkChar = true := by simpa [strOk] using hk
      have hp := parseStringBody_append k.data []
        (colonChar :: spaceChar :: (encVal v ++ commaChar :: spaceChar ::
          (encMembersChars (kv2 :: tl2) ++ rbraceChar :: rest))) hdata
      simp only [List.nil_append, List.reverse_nil] at hp
      have hval := parseValueL_enc v (commaChar :: spaceChar ::
        (encMembersChars (kv2 :: tl2) ++ rbraceChar :: rest)) hv
        (notDigitHead_cons _ _ (by decide))
      have hrec := ih (by simp) (by simpa [metaOk] using htl) (f2 + 1) hlen rest
      rw [encMembersChars_cons, encMembersTail_cons]
      simp only [encMemberChars, encStr, List.cons_append, List.append_assoc,
        List.singleton_append, List.nil_append]
      rw [parseMembersAux.eq_2]
      rw [skipWs_not_ws _ _ (by decide : quoteChar.isWhitespace = false)]
      simp only [if_pos rfl, hp, string_mk_data]
      rw [skipWs_not_ws _ _ (by decide : colonChar.isWhitespace = false)]
      simp only [if_pos rfl, skipWs_space, skipWs_encVal, hval]
      rw [skipWs_not_ws _ _ (by decide : commaChar.isWhitespace = false)]
      simp only [if_pos rfl, parseMembersAux_space]
      rw [hrec]
      simp
theorem data_mk (l : List Char) : (String.mk l).data = l := rfl

theorem encMembersTail_length : ∀ tl : Metadata,
    tl.length ≤ (encMembersTail tl).length := by
  intro tl
  induction tl with
  | nil => simp [encMembersTail]
  | cons kv tl ih =>
    simp only [encMembersTail, List.length_cons, List.length_append]
    omega

theorem encMembersChars_length (m : Metadata) :
    m.length ≤ (encMembersChars m).length := by
  rcases m with _ | ⟨kv, tl⟩
  · simp [encMembersChars]
  · have h1 := encMembersTail_length tl
    have h2 : 1 ≤ (encMemberChars kv).length := by
      simp only [encMemberChars, encStr, List.length_append, List.length_cons]
      omega
    simp only [encMembersChars, List.length_cons, List.length_append]
    omega

theorem json_loads_dumps (m : Metadata) (h : metaOk m = true) :
    json_loads (jsonDumps m) = some m := by
  rcases m with _ | ⟨⟨k, v⟩, tl⟩
  · rfl
  · obtain ⟨t, ht⟩ : ∃ t, encMembersChars ((k, v) :: tl) = quoteChar :: t :=
      ⟨_, rfl⟩
    have hlen : ((k, v) :: tl).length ≤ t.length + 2 := by
      have h3 := encMembersChars_length ((k, v) :: tl)
      rw [ht] at h3
      simp only [List.length_cons] at h3 ⊢
      omega
    have henc := parseMembersAux_enc ((k, v) :: tl) (by simp) h
      (t.length + 2) hlen []
    rw [ht] at henc
    simp only [List.cons_append, List.append_nil] at henc
    simp only [json_loads, jsonDumps, jsonDumpsChars, data_mk, parseObjL, ht,
      List.cons_append]
    rw [skipWs_not_ws _ _ (by decide : lbraceChar.isWhitespace = false)]
    simp only [if_pos rfl]
    rw [skipWs_not_ws _ _ (by decide : quoteChar.isWhitespace = false)]
    have hqr : ¬(quoteChar = rbraceChar) := by decide
    simp only [if_neg hqr, List.length_cons, List.length_append,
      List.length_singleton]
    have harg : t.length + (([] : List Char).length + 1) + 1 = t.length + 2 := by
      simp
    rw [harg, henc]
    rfl
/-- C9: the writer flattens each chunk's metadata through the JSON
encoder into the single string property, the retrieval decoder inverts
the encoder on every flat string/integer mapping in the escape-free
fragment, and an undecodable stored string decodes to the single-key
fallback mapping `raw` instead of failing. -/
theorem c9_round_trip :
    (∀ m : Metadata, metaOk m = true → decode_metadata (jsonDumps m) = m) ∧
    (∀ (chunk : DocumentChunk) (vec : List ℚ),
      (upsert_chunks [chunk] [vec]).map (fun o => o.properties.metadata) =
        [jsonDumps chunk.metadata]) ∧
    (∀ s : String, json_loads s = none →
      decode_metadata s = [(raw_key, .str s)]) := by
  refine ⟨?_, ?_, ?_⟩
  · intro m h
    simp [decode_metadata, json_loads_dumps m h]
  · intro chunk vec
    rfl
  · intro s h
    simp [decode_metadata, h]

/-- C9 witness: the round trip applied to a concrete mapping carrying a
document id and a chunk index, and the fallback applied to a concrete
undecodable string. -/
theorem c9_witness :
    decode_metadata (jsonDumps meta_example) = meta_example ∧
    decode_metadata bad_string = [(raw_key, .str bad_string)] :=
  ⟨c9_round_trip.1 meta_example (by decide),
   c9_round_trip.2.2 bad_string (by decide)⟩
end RagSystem
